import Mathlib

/-!
# Door and light monitor (`teensy/main.cpp`)

A shallow embedding of the poll loop of `main`: the loop body is a pure step
function on the three variables that live across iterations (`door_status`
and the two `elapsedMillis` timers), the hardware reads of one iteration are
its input, and the bytes handed to `Serial.write` are its output.
-/

namespace Monitor

/-! ## Data model -/

/-- Modelled from the spec: the `elapsedMillis` type comes from the board
support headers (`WProgram.h`), which are not part of the sources.  The spec
describes such a counter as the "monotonic duration since last reset",
implementable with "any monotonic clock source plus a stored reset
timestamp"; `ms` is that timestamp.  The clock is a natural number of
time-units that never wraps around. -/
structure elapsedMillis where
  ms : Nat
  deriving DecidableEq, Repr

/-- Modelled from the spec: the value a timer shows when it is read while the
clock shows `now`, the duration since the stored reset timestamp (the clock
being monotonic, `now` is never below `ms` in a run). -/
def elapsedMillis.read (t : elapsedMillis) (now : Nat) : Nat :=
  now - t.ms

/-- Modelled from the spec: the assignment `timer = val` executed while the
clock shows `now`; afterwards the timer reads `val` (the source only ever
assigns `0`, the reset). -/
def elapsedMillis.assign (now val : Nat) : elapsedMillis :=
  ⟨now - val⟩

/-- Modelled from the spec: the default constructor of `elapsedMillis`, which
is not part of the sources, executed while the clock shows `now`.  The spec
gives a timer as the duration since its last reset and counts the start as
one ("within 200 of start/last change", "last reset was at t=0"), so a fresh
timer reads zero. -/
def elapsedMillis.construct (now : Nat) : elapsedMillis :=
  elapsedMillis.assign now 0

/-- The variables of `main` that survive from one loop iteration to the next. -/
structure State where
  door_status : Int
  timeElapsedLDR : elapsedMillis
  timeElapsedDoor : elapsedMillis
  deriving DecidableEq, Repr

/-- What the hardware delivers during one loop iteration: the clock value
`now` at which the iteration runs (the body has no blocking call, so both
timers are read and reset at the one clock value of the iteration), the
result `ldr` of `analogRead(PIN_LDR)`, stored in a `uint32_t`, and the result
`door` of `digitalRead(PIN_DOOR_SENSOR)`, stored in an `int`; `digitalRead`
itself only returns 0 or 1. -/
structure Input where
  now : Nat
  ldr : Nat
  door : Int
  deriving DecidableEq, Repr

/-! ## The loop body -/

/-- Lines 21-25: the light check.  Returns the new state and the bytes
written to the serial link. -/
def lightCheck (now ldr : Nat) (s : State) : State × List Nat :=
  if 500 < ldr ∧ 1000 < s.timeElapsedLDR.read now then
    ({ s with timeElapsedLDR := elapsedMillis.assign now 0 }, [20])
  else
    (s, [])

/-- Lines 27-36: the door check.  Returns the new state and the bytes
written to the serial link. -/
def doorCheck (now : Nat) (new_status : Int) (s : State) : State × List Nat :=
  if new_status ≠ s.door_status ∧ 200 < s.timeElapsedDoor.read now then
    ({ s with door_status := new_status,
              timeElapsedDoor := elapsedMillis.assign now 0 },
     if new_status = 0 then [10] else [11])
  else
    (s, [])

/-- Lines 21-36: one pass through the body of `for (;;)`, the light check
followed by the door check. -/
def iteration (i : Input) (s : State) : State × List Nat :=
  let r₁ := lightCheck i.now i.ldr s
  let r₂ := doorCheck i.now i.door r₁.1
  (r₂.1, r₁.2 ++ r₂.2)

/-- Lines 11-18: the state in which the loop is entered, when both timers are
constructed at clock value `start` and the first `digitalRead` returns
`door`. -/
def init (start : Nat) (door : Int) : State :=
  { door_status := door
    timeElapsedLDR := elapsedMillis.construct start
    timeElapsedDoor := elapsedMillis.construct start }

/-! ## Runs of the loop -/

/-- One executed iteration, kept for reasoning: the state it started in, its
input, the bytes it wrote and the state it left. -/
structure Step where
  before : State
  input : Input
  out : List Nat
  after : State
  deriving DecidableEq, Repr

/-- The first `inputs.length` iterations of the loop started in state `s`. -/
def steps : State → List Input → List Step
  | _, [] => []
  | s, i :: rest =>
      let r := iteration i s
      ⟨s, i, r.2, r.1⟩ :: steps r.1 rest

/-- The loop run over a finite prefix of its inputs: the state reached and
the byte sequence written to the serial link. -/
def loop : State → List Input → State × List Nat
  | s, [] => (s, [])
  | s, i :: rest =>
      let r := iteration i s
      let q := loop r.1 rest
      (q.1, r.2 ++ q.2)

/-- The program: set-up (lines 11-18) followed by the loop.  `start` is the
clock value at start-up, `door` the initial door read, `inputs` what the
hardware delivers in the successive iterations. -/
def main (start : Nat) (door : Int) (inputs : List Input) : State × List Nat :=
  loop (init start door) inputs

/-- The emitted bytes, each paired with the clock value of the iteration that
wrote it. -/
def trace (s : State) (inputs : List Input) : List (Nat × Nat) :=
  (steps s inputs).flatMap fun k => k.out.map fun b => (k.input.now, b)

/-- Byte `20`, the light event. -/
def isLightByte (b : Nat) : Bool := b == 20

/-- Bytes `10` and `11`, the door events. -/
def isDoorByte (b : Nat) : Bool := b == 10 || b == 11

/-- The door bytes of an output sequence, in order. -/
def doorBytes (out : List Nat) : List Nat := out.filter isDoorByte

/-- The light bytes of an output sequence, in order. -/
def lightBytes (out : List Nat) : List Nat := out.filter isLightByte

/-- Clock values of the iterations that wrote a light byte, in order. -/
def lightTimes (tr : List (Nat × Nat)) : List Nat :=
  (tr.filter fun e => isLightByte e.2).map Prod.fst

/-- Clock values of the iterations that wrote a door byte, in order. -/
def doorTimes (tr : List (Nat × Nat)) : List Nat :=
  (tr.filter fun e => isDoorByte e.2).map Prod.fst

/-! ## Basic facts about the loop body -/

theorem lightCheck_fire {now ldr : Nat} {s : State}
    (h : 500 < ldr ∧ 1000 < s.timeElapsedLDR.read now) :
    lightCheck now ldr s =
      ({ s with timeElapsedLDR := elapsedMillis.assign now 0 }, [20]) := by
  simp [lightCheck, h]

theorem lightCheck_idle {now ldr : Nat} {s : State}
    (h : ¬ (500 < ldr ∧ 1000 < s.timeElapsedLDR.read now)) :
    lightCheck now ldr s = (s, []) := by
  simp only [lightCheck, if_neg h]

theorem doorCheck_fire {now : Nat} {n : Int} {s : State}
    (h : n ≠ s.door_status ∧ 200 < s.timeElapsedDoor.read now) :
    doorCheck now n s =
      ({ s with door_status := n, timeElapsedDoor := elapsedMillis.assign now 0 },
       if n = 0 then [10] else [11]) := by
  simp only [doorCheck, if_pos h]

theorem doorCheck_idle {now : Nat} {n : Int} {s : State}
    (h : ¬ (n ≠ s.door_status ∧ 200 < s.timeElapsedDoor.read now)) :
    doorCheck now n s = (s, []) := by
  simp only [doorCheck, if_neg h]

theorem read_assign_zero (now : Nat) :
    (elapsedMillis.assign now 0).read now = 0 := by
  simp [elapsedMillis.assign, elapsedMillis.read]

/-- The light check touches neither the confirmed status nor the door timer. -/
theorem lightCheck_door (now ldr : Nat) (s : State) :
    (lightCheck now ldr s).1.door_status = s.door_status ∧
      (lightCheck now ldr s).1.timeElapsedDoor = s.timeElapsedDoor := by
  unfold lightCheck; split <;> simp

/-- The door check does not touch the light timer. -/
theorem doorCheck_ldr (now : Nat) (n : Int) (s : State) :
    (doorCheck now n s).1.timeElapsedLDR = s.timeElapsedLDR := by
  unfold doorCheck; split <;> simp

/-- The light check writes nothing or the single byte `20`. -/
theorem lightCheck_out (now ldr : Nat) (s : State) :
    (lightCheck now ldr s).2 = [] ∨ (lightCheck now ldr s).2 = [20] := by
  unfold lightCheck; split <;> simp

/-- The door check writes nothing, the single byte `10` or the single byte `11`. -/
theorem doorCheck_out (now : Nat) (n : Int) (s : State) :
    (doorCheck now n s).2 = [] ∨ (doorCheck now n s).2 = [10] ∨
      (doorCheck now n s).2 = [11] := by
  unfold doorCheck; split
  · by_cases h : n = 0 <;> simp [h]
  · simp

/-- The output of an iteration is the output of the light check followed by
that of the door check, both taken on the state the iteration starts in. -/
theorem iteration_out (i : Input) (s : State) :
    (iteration i s).2 = (lightCheck i.now i.ldr s).2 ++ (doorCheck i.now i.door s).2 := by
  simp only [iteration, lightCheck, doorCheck]
  split_ifs <;> simp_all

/-- The light timer after an iteration is the one the light check leaves. -/
theorem iteration_ldr (i : Input) (s : State) :
    (iteration i s).1.timeElapsedLDR = (lightCheck i.now i.ldr s).1.timeElapsedLDR := by
  simp only [iteration, doorCheck_ldr]

/-- The confirmed status and the door timer after an iteration are the ones
the door check leaves. -/
theorem iteration_door (i : Input) (s : State) :
    (iteration i s).1.door_status = (doorCheck i.now i.door s).1.door_status ∧
      (iteration i s).1.timeElapsedDoor = (doorCheck i.now i.door s).1.timeElapsedDoor := by
  simp only [iteration, lightCheck, doorCheck]
  split_ifs <;> simp_all

/-- The door bytes of an iteration are the bytes of its door check. -/
theorem iteration_doorBytes (i : Input) (s : State) :
    doorBytes (iteration i s).2 = (doorCheck i.now i.door s).2 := by
  rw [iteration_out]
  rcases lightCheck_out i.now i.ldr s with h | h <;>
    rcases doorCheck_out i.now i.door s with h0 | h0 | h0 <;>
      simp [h, h0, doorBytes, isDoorByte]

theorem loop_nil (s : State) : loop s [] = (s, []) := rfl

theorem loop_cons (s : State) (i : Input) (rest : List Input) :
    loop s (i :: rest) =
      ((loop (iteration i s).1 rest).1, (iteration i s).2 ++ (loop (iteration i s).1 rest).2) :=
  rfl

theorem trace_nil (s : State) : trace s [] = [] := rfl

theorem trace_cons (s : State) (i : Input) (rest : List Input) :
    trace s (i :: rest) =
      (iteration i s).2.map (fun b => (i.now, b)) ++ trace (iteration i s).1 rest := by
  simp [trace, steps]

/-- The bytes of the trace are the bytes the loop writes. -/
theorem trace_bytes (s : State) (inputs : List Input) :
    (trace s inputs).map Prod.snd = (loop s inputs).2 := by
  induction inputs generalizing s with
  | nil => rfl
  | cons i rest ih =>
    rw [trace_cons, loop_cons, List.map_append, ih]
    simp [Function.comp_def]

/-- Times of the light bytes of a run, unfolded by one iteration. -/
theorem lightTimes_cons (s : State) (i : Input) (rest : List Input) :
    lightTimes (trace s (i :: rest)) =
      (if 500 < i.ldr ∧ 1000 < s.timeElapsedLDR.read i.now then [i.now] else []) ++
        lightTimes (trace (iteration i s).1 rest) := by
  rw [trace_cons, iteration_out]
  by_cases h : 500 < i.ldr ∧ 1000 < s.timeElapsedLDR.read i.now
  · rw [lightCheck_fire h, if_pos h]
    rcases doorCheck_out i.now i.door s with h0 | h0 | h0 <;>
      simp [h0, lightTimes, isLightByte]
  · rw [lightCheck_idle h, if_neg h]
    rcases doorCheck_out i.now i.door s with h0 | h0 | h0 <;>
      simp [h0, lightTimes, isLightByte]

/-- Times of the door bytes of a run, unfolded by one iteration. -/
theorem doorTimes_cons (s : State) (i : Input) (rest : List Input) :
    doorTimes (trace s (i :: rest)) =
      (if i.door ≠ s.door_status ∧ 200 < s.timeElapsedDoor.read i.now then [i.now] else []) ++
        doorTimes (trace (iteration i s).1 rest) := by
  rw [trace_cons, iteration_out]
  by_cases h : i.door ≠ s.door_status ∧ 200 < s.timeElapsedDoor.read i.now
  · rw [doorCheck_fire h, if_pos h]
    rcases lightCheck_out i.now i.ldr s with h0 | h0 <;>
      by_cases hz : i.door = 0 <;> simp [h0, hz, doorTimes, isDoorByte]
  · rw [doorCheck_idle h, if_neg h]
    rcases lightCheck_out i.now i.ldr s with h0 | h0 <;>
      simp [h0, doorTimes, isDoorByte]

/-- Every light byte of a run is written more than 1000 time-units after the
reset timestamp the light timer holds when the run starts, and after the
previous light byte. -/
theorem lightTimes_chain (inputs : List Input) (s : State) :
    List.Chain (fun a b => a + 1000 < b) s.timeElapsedLDR.ms (lightTimes (trace s inputs)) := by
  induction inputs generalizing s with
  | nil => exact List.Chain.nil
  | cons i rest ih =>
    rw [lightTimes_cons]
    have hs := iteration_ldr i s
    by_cases h : 500 < i.ldr ∧ 1000 < s.timeElapsedLDR.read i.now
    · rw [if_pos h]
      rw [lightCheck_fire h] at hs
      have hi := ih (iteration i s).1
      rw [hs] at hi
      refine List.Chain.cons ?_ hi
      have := h.2
      simp only [elapsedMillis.read] at this
      omega
    · rw [if_neg h]
      rw [lightCheck_idle h] at hs
      have hi := ih (iteration i s).1
      rw [hs] at hi
      exact hi

/-- Every door byte of a run is written more than 200 time-units after the
reset timestamp the door timer holds when the run starts, and after the
previous door byte. -/
theorem doorTimes_chain (inputs : List Input) (s : State) :
    List.Chain (fun a b => a + 200 < b) s.timeElapsedDoor.ms (doorTimes (trace s inputs)) := by
  induction inputs generalizing s with
  | nil => exact List.Chain.nil
  | cons i rest ih =>
    rw [doorTimes_cons]
    have hs := (iteration_door i s).2
    by_cases h : i.door ≠ s.door_status ∧ 200 < s.timeElapsedDoor.read i.now
    · rw [if_pos h]
      rw [doorCheck_fire h] at hs
      have hi := ih (iteration i s).1
      rw [hs] at hi
      refine List.Chain.cons ?_ hi
      have := h.2
      simp only [elapsedMillis.read] at this
      omega
    · rw [if_neg h]
      rw [doorCheck_idle h] at hs
      have hi := ih (iteration i s).1
      rw [hs] at hi
      exact hi

/-- An iteration writes byte 20 exactly when its light check fires. -/
theorem mem20_iteration (i : Input) (s : State) :
    20 ∈ (iteration i s).2 ↔ 500 < i.ldr ∧ 1000 < s.timeElapsedLDR.read i.now := by
  rw [iteration_out]
  by_cases h : 500 < i.ldr ∧ 1000 < s.timeElapsedLDR.read i.now
  · simp [lightCheck_fire h, h]
  · rw [lightCheck_idle h]
    rcases doorCheck_out i.now i.door s with h0 | h0 | h0 <;> simp [h0, h]

/-- Every byte of an iteration is 10, 11 or 20. -/
theorem iteration_bytes (i : Input) (s : State) :
    ∀ b ∈ (iteration i s).2, b = 10 ∨ b = 11 ∨ b = 20 := by
  rw [iteration_out]
  rcases lightCheck_out i.now i.ldr s with h | h <;>
    rcases doorCheck_out i.now i.door s with h0 | h0 | h0 <;>
      simp [h, h0]

/-- Every byte of a run is 10, 11 or 20. -/
theorem loop_bytes (inputs : List Input) (s : State) :
    ∀ b ∈ (loop s inputs).2, b = 10 ∨ b = 11 ∨ b = 20 := by
  induction inputs generalizing s with
  | nil => simp [loop_nil]
  | cons i rest ih =>
    intro b hb
    rw [loop_cons, List.mem_append] at hb
    rcases hb with hb | hb
    · exact iteration_bytes i s b hb
    · exact ih _ b hb

/-- A run whose light samples never exceed 500 writes no byte 20. -/
theorem loop_no_light (inputs : List Input) (s : State)
    (h : ∀ i ∈ inputs, i.ldr ≤ 500) : 20 ∉ (loop s inputs).2 := by
  induction inputs generalizing s with
  | nil => simp [loop_nil]
  | cons i rest ih =>
    have hi : ¬ (500 < i.ldr ∧ 1000 < s.timeElapsedLDR.read i.now) := by
      have := h i (List.mem_cons_self _ _)
      omega
    have hr := ih (iteration i s).1 (fun j hj => h j (List.mem_cons_of_mem _ hj))
    rw [loop_cons, List.mem_append, not_or]
    exact ⟨fun hm => hi ((mem20_iteration i s).1 hm), hr⟩

/-- A run that writes no byte 20 leaves the light timer as it was. -/
theorem loop_ldr_of_no_light (inputs : List Input) (s : State)
    (h : 20 ∉ (loop s inputs).2) :
    (loop s inputs).1.timeElapsedLDR = s.timeElapsedLDR := by
  induction inputs generalizing s with
  | nil => rfl
  | cons i rest ih =>
    rw [loop_cons, List.mem_append, not_or] at h
    have hi : ¬ (500 < i.ldr ∧ 1000 < s.timeElapsedLDR.read i.now) :=
      fun hc => h.1 ((mem20_iteration i s).2 hc)
    rw [loop_cons]
    simp only
    rw [ih _ h.2, iteration_ldr, lightCheck_idle hi]

theorem doorBytes_append (a b : List Nat) :
    doorBytes (a ++ b) = doorBytes a ++ doorBytes b := by
  simp [doorBytes]

/-- Door bytes of a run, unfolded by one iteration. -/
theorem doorBytes_loop_cons (s : State) (i : Input) (rest : List Input) :
    doorBytes (loop s (i :: rest)).2 =
      (doorCheck i.now i.door s).2 ++ doorBytes (loop (iteration i s).1 rest).2 := by
  rw [loop_cons, doorBytes_append, iteration_doorBytes]

/-- An iteration whose door check stays idle keeps the confirmed status and
the door timer. -/
theorem iteration_door_idle {i : Input} {s : State}
    (h : ¬ (i.door ≠ s.door_status ∧ 200 < s.timeElapsedDoor.read i.now)) :
    (iteration i s).1.door_status = s.door_status ∧
      (iteration i s).1.timeElapsedDoor = s.timeElapsedDoor := by
  have := iteration_door i s
  rw [doorCheck_idle h] at this
  exact this

/-- An iteration whose door check fires stores the sample and resets the door
timer. -/
theorem iteration_door_fire {i : Input} {s : State}
    (h : i.door ≠ s.door_status ∧ 200 < s.timeElapsedDoor.read i.now) :
    (iteration i s).1.door_status = i.door ∧
      (iteration i s).1.timeElapsedDoor = elapsedMillis.assign i.now 0 := by
  have := iteration_door i s
  rw [doorCheck_fire h] at this
  exact this

/-- A run whose door samples all equal the confirmed status writes no door
byte and keeps the confirmed status. -/
theorem loop_door_same (inputs : List Input) (s : State)
    (h : ∀ i ∈ inputs, i.door = s.door_status) :
    doorBytes (loop s inputs).2 = [] ∧ (loop s inputs).1.door_status = s.door_status := by
  induction inputs generalizing s with
  | nil => exact ⟨rfl, rfl⟩
  | cons i rest ih =>
    have hi : ¬ (i.door ≠ s.door_status ∧ 200 < s.timeElapsedDoor.read i.now) := by
      have := h i (List.mem_cons_self _ _)
      exact fun hc => hc.1 this
    have hs := (iteration_door_idle hi).1
    have hr := ih (iteration i s).1
      (fun j hj => by rw [hs]; exact h j (List.mem_cons_of_mem _ hj))
    rw [doorBytes_loop_cons, doorCheck_idle hi, hr.1]
    refine ⟨rfl, ?_⟩
    rw [loop_cons]
    simp only
    rw [hr.2, hs]

/-- A run whose iterations all read at most 200 on the door timer the run
starts with writes no door byte and keeps confirmed status and door timer. -/
theorem loop_door_absorb (inputs : List Input) (s : State)
    (h : ∀ i ∈ inputs, s.timeElapsedDoor.read i.now ≤ 200) :
    doorBytes (loop s inputs).2 = [] ∧ (loop s inputs).1.door_status = s.door_status ∧
      (loop s inputs).1.timeElapsedDoor = s.timeElapsedDoor := by
  induction inputs generalizing s with
  | nil => exact ⟨rfl, rfl, rfl⟩
  | cons i rest ih =>
    have hi : ¬ (i.door ≠ s.door_status ∧ 200 < s.timeElapsedDoor.read i.now) := by
      have := h i (List.mem_cons_self _ _)
      omega
    have hs := iteration_door_idle hi
    have hr := ih (iteration i s).1
      (fun j hj => by rw [hs.2]; exact h j (List.mem_cons_of_mem _ hj))
    rw [doorBytes_loop_cons, doorCheck_idle hi, hr.1]
    refine ⟨rfl, ?_, ?_⟩
    · rw [loop_cons]
      simp only
      rw [hr.2.1, hs.1]
    · rw [loop_cons]
      simp only
      rw [hr.2.2, hs.2]

/-- A run whose door samples all equal one value `v` different from the
confirmed status writes the door byte of `v` once if some iteration reads
above 200 on the door timer, and no door byte otherwise. -/
theorem loop_door_const (inputs : List Input) (s : State) (v : Int)
    (h : ∀ i ∈ inputs, i.door = v) (hv : v ≠ s.door_status) :
    ((∃ k ∈ steps s inputs, 200 < k.before.timeElapsedDoor.read k.input.now) →
        doorBytes (loop s inputs).2 = [if v = 0 then 10 else 11]) ∧
      ((¬ ∃ k ∈ steps s inputs, 200 < k.before.timeElapsedDoor.read k.input.now) →
        doorBytes (loop s inputs).2 = []) := by
  induction inputs generalizing s with
  | nil => simp [steps, loop_nil, doorBytes]
  | cons i rest ih =>
    have hiv : i.door = v := h i (List.mem_cons_self _ _)
    have hrest : ∀ j ∈ rest, j.door = v := fun j hj => h j (List.mem_cons_of_mem _ hj)
    rw [doorBytes_loop_cons]
    by_cases ht : 200 < s.timeElapsedDoor.read i.now
    · have hf : i.door ≠ s.door_status ∧ 200 < s.timeElapsedDoor.read i.now :=
        ⟨by rw [hiv]; exact hv, ht⟩
      have hs := (iteration_door_fire hf).1
      have hr := (loop_door_same rest (iteration i s).1
        (fun j hj => by rw [hs, hiv]; exact hrest j hj)).1
      rw [doorCheck_fire hf, hr, hiv]
      constructor
      · intro _
        by_cases h0 : v = 0 <;> simp [h0]
      · intro hn
        exact absurd ⟨_, List.mem_cons_self _ _, ht⟩ hn
    · have hi : ¬ (i.door ≠ s.door_status ∧ 200 < s.timeElapsedDoor.read i.now) :=
        fun hc => ht hc.2
      have hs := (iteration_door_idle hi).1
      have hr := ih (iteration i s).1 hrest (by rw [hs]; exact hv)
      rw [doorCheck_idle hi, List.nil_append]
      have hex : (∃ k ∈ steps s (i :: rest), 200 < k.before.timeElapsedDoor.read k.input.now) ↔
          ∃ k ∈ steps (iteration i s).1 rest, 200 < k.before.timeElapsedDoor.read k.input.now := by
        simp only [steps, List.mem_cons]
        constructor
        · rintro ⟨k, hk | hk, hk2⟩
          · subst hk
            exact absurd hk2 ht
          · exact ⟨k, hk, hk2⟩
        · rintro ⟨k, hk, hk2⟩
          exact ⟨k, Or.inr hk, hk2⟩
      rw [hex]
      exact hr

/-- Each recorded step of a run took its input from the input list and wrote
what the loop body writes on its starting state. -/
theorem steps_spec (inputs : List Input) (s : State) :
    ∀ k ∈ steps s inputs, k.input ∈ inputs ∧ k.out = (iteration k.input k.before).2 := by
  induction inputs generalizing s with
  | nil => simp [steps]
  | cons i rest ih =>
    intro k hk
    simp only [steps, List.mem_cons] at hk
    rcases hk with hk | hk
    · subst hk
      exact ⟨List.mem_cons_self _ _, rfl⟩
    · exact ⟨List.mem_cons_of_mem _ (ih _ k hk).1, (ih _ k hk).2⟩

/-- Each recorded step of a run ends in the state the loop body leaves. -/
theorem steps_after (inputs : List Input) (s : State) :
    ∀ k ∈ steps s inputs, k.after = (iteration k.input k.before).1 := by
  induction inputs generalizing s with
  | nil => simp [steps]
  | cons i rest ih =>
    intro k hk
    simp only [steps, List.mem_cons] at hk
    rcases hk with hk | hk
    · subst hk
      rfl
    · exact ih _ k hk

/-- An iteration writes byte 10 exactly when its door check fires on the
sample 0. -/
theorem mem10_iteration (i : Input) (s : State) :
    10 ∈ (iteration i s).2 ↔
      (i.door ≠ s.door_status ∧ 200 < s.timeElapsedDoor.read i.now) ∧ i.door = 0 := by
  rw [iteration_out]
  by_cases h : i.door ≠ s.door_status ∧ 200 < s.timeElapsedDoor.read i.now
  · rw [doorCheck_fire h]
    have h2 := h.2
    by_cases hz : i.door = 0
    · have h1 : ¬ (0 : Int) = s.door_status := hz ▸ h.1
      rcases lightCheck_out i.now i.ldr s with h0 | h0 <;> simp [h0, hz, h1, h2]
    · rcases lightCheck_out i.now i.ldr s with h0 | h0 <;> simp [h0, hz]
  · rw [doorCheck_idle h]
    rcases lightCheck_out i.now i.ldr s with h0 | h0 <;> simp [h0, h]

/-- An iteration writes byte 11 exactly when its door check fires on a
non-zero sample. -/
theorem mem11_iteration (i : Input) (s : State) :
    11 ∈ (iteration i s).2 ↔
      (i.door ≠ s.door_status ∧ 200 < s.timeElapsedDoor.read i.now) ∧ i.door ≠ 0 := by
  rw [iteration_out]
  by_cases h : i.door ≠ s.door_status ∧ 200 < s.timeElapsedDoor.read i.now
  · rw [doorCheck_fire h]
    rcases lightCheck_out i.now i.ldr s with h0 | h0 <;>
      by_cases hz : i.door = 0 <;> simp [h0, hz, h]
  · rw [doorCheck_idle h]
    rcases lightCheck_out i.now i.ldr s with h0 | h0 <;> simp [h0, h]

/-- An iteration changes the confirmed status exactly when it writes a door
byte. -/
theorem iteration_status_changes (i : Input) (s : State) :
    (iteration i s).1.door_status ≠ s.door_status ↔ doorBytes (iteration i s).2 ≠ [] := by
  rw [iteration_doorBytes]
  by_cases h : i.door ≠ s.door_status ∧ 200 < s.timeElapsedDoor.read i.now
  · rw [(iteration_door_fire h).1, doorCheck_fire h]
    refine ⟨fun _ => ?_, fun _ => h.1⟩
    by_cases hz : i.door = 0 <;> simp [hz]
  · rw [(iteration_door_idle h).1, doorCheck_idle h]
    simp

/-- The confirmed status at the end of a run: the one the run started with if
no door byte was written, and otherwise the value reported by the last door
byte (0 for byte 10, non-zero for byte 11). -/
theorem loop_status_last (inputs : List Input) (s : State) :
    (doorBytes (loop s inputs).2 = [] → (loop s inputs).1.door_status = s.door_status) ∧
      ∀ b, (doorBytes (loop s inputs).2).getLast? = some b →
        ((loop s inputs).1.door_status = 0 ↔ b = 10) ∧
        ((loop s inputs).1.door_status ≠ 0 ↔ b = 11) := by
  induction inputs generalizing s with
  | nil => simp [loop_nil, doorBytes]
  | cons i rest ih =>
    have hr := ih (iteration i s).1
    have hfin : (loop s (i :: rest)).1 = (loop (iteration i s).1 rest).1 := rfl
    rw [doorBytes_loop_cons, hfin]
    by_cases h : i.door ≠ s.door_status ∧ 200 < s.timeElapsedDoor.read i.now
    · rw [doorCheck_fire h]
      have hs := (iteration_door_fire h).1
      constructor
      · intro hnil
        by_cases hz : i.door = 0 <;> simp [hz] at hnil
      · intro b hb
        rw [List.getLast?_append] at hb
        cases hD : (doorBytes (loop (iteration i s).1 rest).2).getLast? with
        | none =>
          have hnil := List.getLast?_eq_none_iff.1 hD
          rw [hr.1 hnil, hs]
          rw [hD] at hb
          by_cases hz : i.door = 0
          · simp [hz] at hb
            simp [hz, ← hb]
          · simp [hz] at hb
            simp [hz, ← hb]
        | some c =>
          rw [hD] at hb
          simp at hb
          exact hr.2 b (hb ▸ hD)
    · rw [doorCheck_idle h, List.nil_append]
      have hs := (iteration_door_idle h).1
      rw [← hs]
      exact hr

/-- The light bytes of an iteration are the bytes of its light check. -/
theorem iteration_lightBytes (i : Input) (s : State) :
    lightBytes (iteration i s).2 = (lightCheck i.now i.ldr s).2 := by
  rw [iteration_out]
  rcases lightCheck_out i.now i.ldr s with h | h <;>
    rcases doorCheck_out i.now i.door s with h0 | h0 | h0 <;>
      simp [h, h0, lightBytes, isLightByte]

/-- What the light check writes and the light timer it leaves depend on the
state only through the light timer. -/
theorem lightCheck_congr (now ldr : Nat) {s₁ s₂ : State}
    (h : s₁.timeElapsedLDR = s₂.timeElapsedLDR) :
    (lightCheck now ldr s₁).2 = (lightCheck now ldr s₂).2 ∧
      (lightCheck now ldr s₁).1.timeElapsedLDR = (lightCheck now ldr s₂).1.timeElapsedLDR := by
  simp only [lightCheck, h]
  split <;> simp [h]

/-- What the door check writes and the confirmed status and door timer it
leaves depend on the state only through the confirmed status and the door
timer. -/
theorem doorCheck_congr (now : Nat) (n : Int) {s₁ s₂ : State}
    (hd : s₁.door_status = s₂.door_status) (ht : s₁.timeElapsedDoor = s₂.timeElapsedDoor) :
    (doorCheck now n s₁).2 = (doorCheck now n s₂).2 ∧
      (doorCheck now n s₁).1.door_status = (doorCheck now n s₂).1.door_status ∧
      (doorCheck now n s₁).1.timeElapsedDoor = (doorCheck now n s₂).1.timeElapsedDoor := by
  simp only [doorCheck, hd, ht]
  split <;> simp [hd, ht]

/-- Two runs that agree on the light timer at the start, on the iteration
times and on the light samples write their light bytes in the same
iterations. -/
theorem steps_light_indep (xs : List Input) :
    ∀ (ys : List Input) (s₁ s₂ : State), s₁.timeElapsedLDR = s₂.timeElapsedLDR →
      xs.map (fun i => (i.now, i.ldr)) = ys.map (fun i => (i.now, i.ldr)) →
      (steps s₁ xs).map (fun k => lightBytes k.out) =
        (steps s₂ ys).map (fun k => lightBytes k.out) := by
  induction xs with
  | nil =>
    intro ys s₁ s₂ _ h
    cases ys with
    | nil => rfl
    | cons y ys => simp at h
  | cons x xs ih =>
    intro ys s₁ s₂ hs h
    cases ys with
    | nil => simp at h
    | cons y ys =>
      simp only [List.map_cons, List.cons.injEq, Prod.mk.injEq] at h
      obtain ⟨⟨hn, hl⟩, hrest⟩ := h
      have hc := lightCheck_congr x.now x.ldr hs
      have hstate : (iteration x s₁).1.timeElapsedLDR = (iteration y s₂).1.timeElapsedLDR := by
        rw [iteration_ldr, iteration_ldr, ← hn, ← hl]
        exact hc.2
      simp only [steps, List.map_cons, List.cons.injEq]
      refine ⟨?_, ih ys _ _ hstate hrest⟩
      rw [iteration_lightBytes, iteration_lightBytes, ← hn, ← hl]
      exact hc.1

/-- Two runs that agree on the confirmed status and the door timer at the
start, on the iteration times and on the door samples write the same door
bytes in the same iterations. -/
theorem steps_door_indep (xs : List Input) :
    ∀ (ys : List Input) (s₁ s₂ : State), s₁.door_status = s₂.door_status →
      s₁.timeElapsedDoor = s₂.timeElapsedDoor →
      xs.map (fun i => (i.now, i.door)) = ys.map (fun i => (i.now, i.door)) →
      (steps s₁ xs).map (fun k => doorBytes k.out) =
        (steps s₂ ys).map (fun k => doorBytes k.out) := by
  induction xs with
  | nil =>
    intro ys s₁ s₂ _ _ h
    cases ys with
    | nil => rfl
    | cons y ys => simp at h
  | cons x xs ih =>
    intro ys s₁ s₂ hd ht h
    cases ys with
    | nil => simp at h
    | cons y ys =>
      simp only [List.map_cons, List.cons.injEq, Prod.mk.injEq] at h
      obtain ⟨⟨hn, hv⟩, hrest⟩ := h
      have hc := doorCheck_congr x.now x.door hd ht
      have h1 : (iteration x s₁).1.door_status = (iteration y s₂).1.door_status := by
        rw [(iteration_door x s₁).1, (iteration_door y s₂).1, ← hn, ← hv]
        exact hc.2.1
      have h2 : (iteration x s₁).1.timeElapsedDoor = (iteration y s₂).1.timeElapsedDoor := by
        rw [(iteration_door x s₁).2, (iteration_door y s₂).2, ← hn, ← hv]
        exact hc.2.2
      simp only [steps, List.map_cons, List.cons.injEq]
      refine ⟨?_, ih ys _ _ h1 h2 hrest⟩
      rw [iteration_doorBytes, iteration_doorBytes, ← hn, ← hv]
      exact hc.1

/-- With door reads restricted to 0 and 1, the door bytes of a run alternate,
and the first one differs from the byte that stands for the confirmed status
the run starts with. -/
theorem loop_door_alternate (inputs : List Input) (s : State)
    (hs : s.door_status = 0 ∨ s.door_status = 1)
    (h : ∀ i ∈ inputs, i.door = 0 ∨ i.door = 1) :
    List.Chain (fun a b => a ≠ b) (if s.door_status = 0 then 10 else 11)
      (doorBytes (loop s inputs).2) := by
  induction inputs generalizing s with
  | nil => exact List.Chain.nil
  | cons i rest ih =>
    have hi := h i (List.mem_cons_self _ _)
    have hrest : ∀ j ∈ rest, j.door = 0 ∨ j.door = 1 :=
      fun j hj => h j (List.mem_cons_of_mem _ hj)
    rw [doorBytes_loop_cons]
    by_cases hf : i.door ≠ s.door_status ∧ 200 < s.timeElapsedDoor.read i.now
    · have hst := (iteration_door_fire hf).1
      have hr := ih (iteration i s).1 (by rw [hst]; exact hi) hrest
      rw [hst] at hr
      rw [doorCheck_fire hf]
      have hne := hf.1
      by_cases hz : i.door = 0
      · have hs0 : ¬ s.door_status = 0 := fun hc => hne (by rw [hz, hc])
        simp only [hz, if_true, hs0, if_false, List.singleton_append] at hr ⊢
        exact List.Chain.cons (by decide) hr
      · have hs0 : s.door_status = 0 := by omega
        simp only [hz, if_false, hs0, if_true, List.singleton_append] at hr ⊢
        exact List.Chain.cons (by decide) hr
    · have hst := (iteration_door_idle hf).1
      have hr := ih (iteration i s).1 (by rw [hst]; exact hs) hrest
      rw [hst] at hr
      rw [doorCheck_idle hf, List.nil_append]
      exact hr

/-- An iteration never moves a reset timestamp backwards. -/
theorem iteration_ms_le (i : Input) (s : State) :
    s.timeElapsedLDR.ms ≤ (iteration i s).1.timeElapsedLDR.ms ∧
      s.timeElapsedDoor.ms ≤ (iteration i s).1.timeElapsedDoor.ms := by
  constructor
  · rw [iteration_ldr]
    by_cases h : 500 < i.ldr ∧ 1000 < s.timeElapsedLDR.read i.now
    · rw [lightCheck_fire h]
      have := h.2
      simp only [elapsedMillis.read] at this
      simp only [elapsedMillis.assign]
      omega
    · rw [lightCheck_idle h]
  · rw [(iteration_door i s).2]
    by_cases h : i.door ≠ s.door_status ∧ 200 < s.timeElapsedDoor.read i.now
    · rw [doorCheck_fire h]
      have := h.2
      simp only [elapsedMillis.read] at this
      simp only [elapsedMillis.assign]
      omega
    · rw [doorCheck_idle h]

/-- Throughout a run the reset timestamps stay at or above the ones the run
started with. -/
theorem steps_ms_le (inputs : List Input) (s : State) :
    ∀ k ∈ steps s inputs, s.timeElapsedLDR.ms ≤ k.before.timeElapsedLDR.ms ∧
      s.timeElapsedDoor.ms ≤ k.before.timeElapsedDoor.ms := by
  induction inputs generalizing s with
  | nil => simp [steps]
  | cons i rest ih =>
    intro k hk
    simp only [steps, List.mem_cons] at hk
    rcases hk with hk | hk
    · subst hk
      exact ⟨le_refl _, le_refl _⟩
    · have h1 := iteration_ms_le i s
      have h2 := ih _ k hk
      exact ⟨le_trans h1.1 h2.1, le_trans h1.2 h2.2⟩

/-- With door reads restricted to 0 and 1, the confirmed status is 0 or 1 at
the start of every iteration of a run. -/
theorem steps_status_binary (inputs : List Input) (s : State)
    (hs : s.door_status = 0 ∨ s.door_status = 1)
    (h : ∀ i ∈ inputs, i.door = 0 ∨ i.door = 1) :
    ∀ k ∈ steps s inputs, k.before.door_status = 0 ∨ k.before.door_status = 1 := by
  induction inputs generalizing s with
  | nil => simp [steps]
  | cons i rest ih =>
    intro k hk
    simp only [steps, List.mem_cons] at hk
    rcases hk with hk | hk
    · subst hk
      exact hs
    · have hi := h i (List.mem_cons_self _ _)
      have hnext : (iteration i s).1.door_status = 0 ∨ (iteration i s).1.door_status = 1 := by
        by_cases hf : i.door ≠ s.door_status ∧ 200 < s.timeElapsedDoor.read i.now
        · rw [(iteration_door_fire hf).1]
          exact hi
        · rw [(iteration_door_idle hf).1]
          exact hs
      exact ih _ hnext (fun j hj => h j (List.mem_cons_of_mem _ hj)) k hk

/-! ## Claims -/

/-- C1: in one iteration, for every light sample `ldr` and every reading `t`
of the light timer, byte 20 is written and the light timer is reset to zero
exactly when `ldr > 500` and `t > 1000`; otherwise the light check writes no
byte and leaves the state, the light timer included, as it was. -/
theorem C1_light_check (now ldr t : Nat) (door : Int) (s : State) :
    s.timeElapsedLDR.read now = t →
    ((20 ∈ (iteration ⟨now, ldr, door⟩ s).2 ↔ 500 < ldr ∧ 1000 < t) ∧
     (500 < ldr ∧ 1000 < t →
        (lightCheck now ldr s).2 = [20] ∧
        (lightCheck now ldr s).1.timeElapsedLDR.read now = 0 ∧
        (iteration ⟨now, ldr, door⟩ s).1.timeElapsedLDR.read now = 0) ∧
     (¬ (500 < ldr ∧ 1000 < t) →
        (lightCheck now ldr s).2 = [] ∧
        (lightCheck now ldr s).1 = s ∧
        (iteration ⟨now, ldr, door⟩ s).1.timeElapsedLDR = s.timeElapsedLDR)) := by
  intro ht
  subst ht
  by_cases h : 500 < ldr ∧ 1000 < s.timeElapsedLDR.read now
  · have hl := lightCheck_fire h
    refine ⟨?_, ?_, fun hn => absurd h hn⟩
    · simp [iteration, hl, h]
    · intro _
      simp [iteration, hl, doorCheck_ldr, read_assign_zero]
  · have hl := lightCheck_idle h
    refine ⟨?_, fun hp => absurd hp h, ?_⟩
    · exact mem20_iteration ⟨now, ldr, door⟩ s
    · intro _
      simp [iteration, hl, doorCheck_ldr]

theorem C1_light_check_witness :
    (20 ∈ (iteration ⟨1001, 600, 0⟩ (init 0 0)).2 ↔ 500 < 600 ∧ 1000 < 1001) :=
  (C1_light_check 1001 600 1001 0 (init 0 0) (by decide)).1

/-- C2: in one iteration, for every sampled door value `n`, confirmed status
`d` and reading `t` of the door timer: when `n` differs from `d` and
`t > 200`, exactly one byte is written (10 when `n` is 0, 11 otherwise), the
confirmed status becomes `n` and the door timer is reset to zero; otherwise
the door check writes no byte and leaves the confirmed status and the door
timer as they were. -/
theorem C2_door_check (now : Nat) (n d : Int) (t : Nat) (s : State) :
    s.door_status = d → s.timeElapsedDoor.read now = t →
    ((n ≠ d ∧ 200 < t →
        (doorCheck now n s).2 = [if n = 0 then 10 else 11] ∧
        (doorCheck now n s).1.door_status = n ∧
        (doorCheck now n s).1.timeElapsedDoor.read now = 0 ∧
        (doorCheck now n s).1.timeElapsedLDR = s.timeElapsedLDR) ∧
     (¬ (n ≠ d ∧ 200 < t) →
        (doorCheck now n s).2 = [] ∧ (doorCheck now n s).1 = s)) := by
  intro hd ht
  subst hd ht
  constructor
  · intro h
    rw [doorCheck_fire h]
    refine ⟨?_, rfl, read_assign_zero now, rfl⟩
    by_cases h0 : n = 0 <;> simp [h0]
  · intro h
    rw [doorCheck_idle h]
    exact ⟨rfl, rfl⟩

theorem C2_door_check_witness :
    (doorCheck 201 1 (init 0 0)).2 = [if (1 : Int) = 0 then 10 else 11] ∧
      (doorCheck 201 1 (init 0 0)).1.door_status = 1 :=
  let h := (C2_door_check 201 1 0 201 (init 0 0) rfl (by decide)).1
    ⟨by decide, by decide⟩
  ⟨h.1, h.2.1⟩

/-- C3: in every run of the poll loop, from any state, with any timings and
any door samples, in which every light sample is at most 500, the byte
sequence written contains no byte 20. -/
theorem C3_no_light_byte_below_threshold (s : State) (inputs : List Input) :
    (∀ i ∈ inputs, i.ldr ≤ 500) → 20 ∉ (loop s inputs).2 :=
  loop_no_light inputs s

theorem C3_no_light_byte_below_threshold_witness :
    20 ∉ (loop (init 0 0) [⟨1500, 500, 1⟩, ⟨3000, 17, 0⟩]).2 :=
  C3_no_light_byte_below_threshold (init 0 0) [⟨1500, 500, 1⟩, ⟨3000, 17, 0⟩]
    (by decide)

/-- C4: in every run of the poll loop, any two successive writes of byte 20
are more than 1000 time-units apart, and any two successive writes of a door
byte (10 or 11) are more than 200 time-units apart. -/
theorem C4_minimum_interval (s : State) (inputs : List Input) :
    List.Chain' (fun a b => a + 1000 < b) (lightTimes (trace s inputs)) ∧
      List.Chain' (fun a b => a + 200 < b) (doorTimes (trace s inputs)) :=
  ⟨(List.Chain'.tail (l := s.timeElapsedLDR.ms :: _) (lightTimes_chain inputs s)),
   (List.Chain'.tail (l := s.timeElapsedDoor.ms :: _) (doorTimes_chain inputs s))⟩

/-- C5, as stated, fails: with the light sample held at 600, the iteration at
time 1001 writes byte 20, and the iteration exactly 1000 time-units later, at
time 2001, writes none. -/
theorem C5_no_rearm_at_1000 :
    20 ∈ (iteration ⟨1001, 600, 0⟩ (init 0 0)).2 ∧
      20 ∉ (iteration ⟨1001 + 1000, 600, 0⟩ (iteration ⟨1001, 600, 0⟩ (init 0 0)).1).2 := by
  decide

/-- C5, amended: after an iteration at time `i.now` that wrote byte 20 and
any further iterations `mid` that wrote none, an iteration with light sample
above 500 run `t` time-units after `i.now` writes byte 20 exactly when
`t > 1000`; in particular it writes none at `t = 1000` and none at
`t = 999`. -/
theorem C5_light_rearm (s : State) (i : Input) (mid : List Input) (t ldr : Nat) (door : Int) :
    20 ∈ (iteration i s).2 → 20 ∉ (loop (iteration i s).1 mid).2 → 500 < ldr →
    (20 ∈ (iteration ⟨i.now + t, ldr, door⟩ (loop (iteration i s).1 mid).1).2 ↔ 1000 < t) := by
  intro hfire hmid hldr
  have hf := (mem20_iteration i s).1 hfire
  have h1 : (iteration i s).1.timeElapsedLDR = elapsedMillis.assign i.now 0 := by
    rw [iteration_ldr, lightCheck_fire hf]
  rw [mem20_iteration, loop_ldr_of_no_light mid _ hmid, h1]
  simp only [elapsedMillis.read, elapsedMillis.assign]
  constructor
  · intro h
    omega
  · intro h
    exact ⟨hldr, by omega⟩

theorem C5_light_rearm_witness :
    (20 ∈ (iteration ⟨1001 + 1001, 600, 0⟩
        (loop (iteration ⟨1001, 600, 0⟩ (init 0 0)).1 [⟨1500, 600, 0⟩, ⟨2001, 600, 0⟩]).1).2 ↔
      1000 < 1001) :=
  C5_light_rearm (init 0 0) ⟨1001, 600, 0⟩ [⟨1500, 600, 0⟩, ⟨2001, 600, 0⟩] 1001 600 0
    (by decide) (by decide) (by decide)

/-- C6: in a run whose door samples all equal one value `v` different from
the confirmed status at the start, at most one door byte is written, exactly
one if some iteration of the run reads above 200 on the door timer, and that
byte is 11 when the confirmed status was closed (0) and 10 when `v` is closed
(0); in a run whose door samples all equal the confirmed status no door byte
is written. -/
theorem C6_single_report (s : State) (inputs : List Input) (v : Int) :
    ((∀ i ∈ inputs, i.door = v) → v ≠ s.door_status →
        (doorBytes (loop s inputs).2).length ≤ 1 ∧
        ((∃ k ∈ steps s inputs, 200 < k.before.timeElapsedDoor.read k.input.now) →
          doorBytes (loop s inputs).2 = [if v = 0 then 10 else 11]) ∧
        (s.door_status = 0 → ∀ b ∈ doorBytes (loop s inputs).2, b = 11) ∧
        (v = 0 → ∀ b ∈ doorBytes (loop s inputs).2, b = 10)) ∧
      ((∀ i ∈ inputs, i.door = s.door_status) → doorBytes (loop s inputs).2 = []) := by
  refine ⟨fun h hv => ?_, fun h => (loop_door_same inputs s h).1⟩
  have hc := loop_door_const inputs s v h hv
  have hcases : doorBytes (loop s inputs).2 = [] ∨
      doorBytes (loop s inputs).2 = [if v = 0 then 10 else 11] := by
    by_cases hex : ∃ k ∈ steps s inputs, 200 < k.before.timeElapsedDoor.read k.input.now
    · exact Or.inr (hc.1 hex)
    · exact Or.inl (hc.2 hex)
  refine ⟨?_, hc.1, ?_, ?_⟩
  · rcases hcases with h0 | h0 <;> simp [h0]
  · intro hd b hb
    have hv0 : v ≠ 0 := fun h0 => hv (by rw [h0, hd])
    rcases hcases with h0 | h0 <;> simp [h0, hv0] at hb
    exact hb
  · intro hv0 b hb
    rcases hcases with h0 | h0 <;> simp [h0, hv0] at hb
    exact hb

theorem C6_single_report_witness :
    doorBytes (loop (init 0 0) [⟨100, 0, 1⟩, ⟨250, 0, 1⟩, ⟨600, 0, 1⟩]).2 = [11] ∧
      doorBytes (loop (init 0 1) [⟨100, 0, 1⟩, ⟨250, 0, 1⟩]).2 = [] :=
  ⟨((C6_single_report (init 0 0) [⟨100, 0, 1⟩, ⟨250, 0, 1⟩, ⟨600, 0, 1⟩] 1).1
      (by decide) (by decide)).2.1 (by decide),
   (C6_single_report (init 0 1) [⟨100, 0, 1⟩, ⟨250, 0, 1⟩] 1).2 (by decide)⟩

/-- C7, as stated, fails: the door opens and byte 11 is written at time 300;
the door closes and reopens within the next 200 time-units; at time 501, the
first iteration whose door timer (201) exceeds 200, the sampled value 1 is not
reported: the iteration writes nothing. -/
theorem C7_no_report_when_back_at_confirmed :
    (loop (init 0 0) [⟨300, 0, 1⟩, ⟨350, 0, 0⟩, ⟨400, 0, 1⟩]).2 = [11] ∧
      (loop (init 0 0) [⟨300, 0, 1⟩, ⟨350, 0, 0⟩, ⟨400, 0, 1⟩]).1.timeElapsedDoor.read 501
        = 201 ∧
      (iteration ⟨501, 0, 1⟩
        (loop (init 0 0) [⟨300, 0, 1⟩, ⟨350, 0, 0⟩, ⟨400, 0, 1⟩]).1).2 = [] := by
  decide

/-- C7, amended: an iteration whose door timer reads at most 200 writes no
door byte and keeps the confirmed status, whatever is sampled; and after any
run `pre` of such iterations, at the first iteration `i` whose door timer
reads above 200, the sampled value is reported by exactly one byte (10 if it
is 0, 11 otherwise) and becomes the confirmed status if it differs from the
confirmed status, while if it equals the confirmed status no door byte is
written and the confirmed status stays. -/
theorem C7_door_absorption (s : State) (pre : List Input) (i : Input) :
    (∀ j : Input, s.timeElapsedDoor.read j.now ≤ 200 →
        doorBytes (iteration j s).2 = [] ∧
        (iteration j s).1.door_status = s.door_status) ∧
    ((∀ j ∈ pre, s.timeElapsedDoor.read j.now ≤ 200) →
      200 < s.timeElapsedDoor.read i.now →
        doorBytes (loop s pre).2 = [] ∧
        (loop s pre).1.door_status = s.door_status ∧
        (i.door ≠ s.door_status →
          doorBytes (iteration i (loop s pre).1).2 = [if i.door = 0 then 10 else 11] ∧
          (iteration i (loop s pre).1).1.door_status = i.door) ∧
        (i.door = s.door_status →
          doorBytes (iteration i (loop s pre).1).2 = [] ∧
          (iteration i (loop s pre).1).1.door_status = s.door_status)) := by
  constructor
  · intro j hj
    have hi : ¬ (j.door ≠ s.door_status ∧ 200 < s.timeElapsedDoor.read j.now) := by
      omega
    rw [iteration_doorBytes, doorCheck_idle hi]
    exact ⟨rfl, (iteration_door_idle hi).1⟩
  · intro hpre hi
    have ha := loop_door_absorb pre s hpre
    refine ⟨ha.1, ha.2.1, ?_, ?_⟩
    · intro hne
      have hf : i.door ≠ (loop s pre).1.door_status ∧
          200 < (loop s pre).1.timeElapsedDoor.read i.now := by
        rw [ha.2.1, ha.2.2]
        exact ⟨hne, hi⟩
      rw [iteration_doorBytes, doorCheck_fire hf]
      refine ⟨?_, (iteration_door_fire hf).1⟩
      by_cases h0 : i.door = 0 <;> simp [h0]
    · intro heq
      have hn : ¬ (i.door ≠ (loop s pre).1.door_status ∧
          200 < (loop s pre).1.timeElapsedDoor.read i.now) := by
        rw [ha.2.1]
        exact fun hc => hc.1 heq
      rw [iteration_doorBytes, doorCheck_idle hn, (iteration_door_idle hn).1, ha.2.1]
      exact ⟨rfl, rfl⟩

theorem C7_door_absorption_witness :
    doorBytes (loop (iteration ⟨300, 0, 1⟩ (init 0 0)).1 [⟨350, 0, 0⟩, ⟨500, 0, 1⟩]).2 = [] ∧
      doorBytes (iteration ⟨501, 0, 0⟩
        (loop (iteration ⟨300, 0, 1⟩ (init 0 0)).1 [⟨350, 0, 0⟩, ⟨500, 0, 1⟩]).1).2 = [10] :=
  let h := (C7_door_absorption (iteration ⟨300, 0, 1⟩ (init 0 0)).1
    [⟨350, 0, 0⟩, ⟨500, 0, 1⟩] ⟨501, 0, 0⟩).2 (by decide) (by decide)
  ⟨h.1, (h.2.2.1 (by decide)).1⟩

/-- C8, as stated, fails: in the run from start-up at time 0 with iterations
at times 0, 200, 400, 1400, 1450, 2500 and light samples 0, 0, 600, 600, 600,
600, no byte 20 is written at time 400. -/
theorem C8_no_light_byte_at_400 :
    (400, 20) ∉ trace (init 0 0)
      [⟨0, 0, 0⟩, ⟨200, 0, 0⟩, ⟨400, 600, 0⟩, ⟨1400, 600, 0⟩, ⟨1450, 600, 0⟩,
       ⟨2500, 600, 0⟩] := by
  decide

/-- C8, amended: in the run from start-up at time 0 with iterations at times
0, 200, 400, 1400, 1450, 2500, light samples 0, 0, 600, 600, 600, 600 and
every door sample equal to the initial door read `d`, byte 20 is written at
time 1400 and at time 2500 and at no other time (not at 400, where the light
timer reads 400, and not at 1450); nothing else is written. -/
theorem C8_light_scenario (d : Int) :
    trace (init 0 d)
      [⟨0, 0, d⟩, ⟨200, 0, d⟩, ⟨400, 600, d⟩, ⟨1400, 600, d⟩, ⟨1450, 600, d⟩,
       ⟨2500, 600, d⟩] = [(1400, 20), (2500, 20)] ∧
    (main 0 d
      [⟨0, 0, d⟩, ⟨200, 0, d⟩, ⟨400, 600, d⟩, ⟨1400, 600, d⟩, ⟨1450, 600, d⟩,
       ⟨2500, 600, d⟩]).2 = [20, 20] := by
  simp [main, loop, trace, steps, iteration, lightCheck, doorCheck, init,
    elapsedMillis.read, elapsedMillis.assign, elapsedMillis.construct]

/-- C9: starting with confirmed status 1 and both timers reset at time 0,
the iterations at times 0, 50, 100, 350, 600 with door samples 1, 1, 0, 0, 1
and light samples at most 500 write nothing at times 0, 50 and 100, byte 10
at time 350 and byte 11 at time 600; the whole output is `[10, 11]`. -/
theorem C9_door_scenario (l₀ l₁ l₂ l₃ l₄ : Nat) :
    l₀ ≤ 500 → l₁ ≤ 500 → l₂ ≤ 500 → l₃ ≤ 500 → l₄ ≤ 500 →
    (steps (init 0 1)
      [⟨0, l₀, 1⟩, ⟨50, l₁, 1⟩, ⟨100, l₂, 0⟩, ⟨350, l₃, 0⟩, ⟨600, l₄, 1⟩]).map Step.out
        = [[], [], [], [10], [11]] ∧
    (main 0 1
      [⟨0, l₀, 1⟩, ⟨50, l₁, 1⟩, ⟨100, l₂, 0⟩, ⟨350, l₃, 0⟩, ⟨600, l₄, 1⟩]).2 = [10, 11] := by
  intro h₀ h₁ h₂ h₃ h₄
  have n₀ : ¬ 500 < l₀ := by omega
  have n₁ : ¬ 500 < l₁ := by omega
  have n₂ : ¬ 500 < l₂ := by omega
  have n₃ : ¬ 500 < l₃ := by omega
  have n₄ : ¬ 500 < l₄ := by omega
  simp [main, loop, steps, iteration, lightCheck, doorCheck, init,
    elapsedMillis.read, elapsedMillis.assign, elapsedMillis.construct, n₀, n₁, n₂, n₃, n₄]

theorem C9_door_scenario_witness :
    (main 0 1
      [⟨0, 0, 1⟩, ⟨50, 100, 1⟩, ⟨100, 200, 0⟩, ⟨350, 300, 0⟩, ⟨600, 500, 1⟩]).2 = [10, 11] :=
  (C9_door_scenario 0 100 200 300 500 (by decide) (by decide) (by decide) (by decide)
    (by decide)).2

/-- C10, as stated, fails: with the light sensor steady at 600 and the door
sensor steady at 0, the iteration at time 1001 writes byte 20. -/
theorem C10_steady_bright_light_fires :
    (main 0 0 [⟨1001, 600, 0⟩]).2 = [20] := by
  decide

/-- C10, amended: in a run where the light sensor reads one constant value
`l` on every iteration and the door sensor one constant value `d` on every
read, the initial one included, no door byte is ever written, so every byte
written is 20; if `l` is at most 500 nothing at all is written; and if `l`
exceeds 500, every iteration whose light timer reads above 1000 writes
byte 20. -/
theorem C10_steady_inputs (start l : Nat) (d : Int) (inputs : List Input) :
    (∀ i ∈ inputs, i.ldr = l ∧ i.door = d) →
    doorBytes (main start d inputs).2 = [] ∧
      (∀ b ∈ (main start d inputs).2, b = 20) ∧
      (l ≤ 500 → (main start d inputs).2 = []) ∧
      (500 < l → ∀ k ∈ steps (init start d) inputs,
        1000 < k.before.timeElapsedLDR.read k.input.now → 20 ∈ k.out) := by
  intro h
  have hd : doorBytes (main start d inputs).2 = [] :=
    (loop_door_same inputs (init start d) (fun i hi => (h i hi).2)).1
  have hall : ∀ b ∈ (main start d inputs).2, b = 20 := by
    intro b hb
    rcases loop_bytes inputs (init start d) b hb with h0 | h0 | h0
    · have : b ∈ doorBytes (main start d inputs).2 := by
        simp only [doorBytes, List.mem_filter]
        exact ⟨hb, by rw [h0]; rfl⟩
      rw [hd] at this
      simp at this
    · have : b ∈ doorBytes (main start d inputs).2 := by
        simp only [doorBytes, List.mem_filter]
        exact ⟨hb, by rw [h0]; rfl⟩
      rw [hd] at this
      simp at this
    · exact h0
  refine ⟨hd, hall, ?_, ?_⟩
  · intro hl
    have hno : 20 ∉ (main start d inputs).2 :=
      loop_no_light inputs (init start d) (fun i hi => by rw [(h i hi).1]; exact hl)
    apply List.eq_nil_iff_forall_not_mem.2
    intro b hb
    exact hno (hall b hb ▸ hb)
  · intro hl k hk ht
    obtain ⟨hin, hout⟩ := steps_spec inputs (init start d) k hk
    rw [hout, mem20_iteration]
    exact ⟨by rw [(h _ hin).1]; exact hl, ht⟩

theorem C10_steady_inputs_witness :
    doorBytes (main 0 1 [⟨1500, 700, 1⟩, ⟨1600, 700, 1⟩]).2 = [] ∧
      (main 0 1 [⟨1500, 400, 1⟩, ⟨1600, 400, 1⟩]).2 = [] :=
  ⟨(C10_steady_inputs 0 700 1 [⟨1500, 700, 1⟩, ⟨1600, 700, 1⟩] (by decide)).1,
   (C10_steady_inputs 0 400 1 [⟨1500, 400, 1⟩, ⟨1600, 400, 1⟩] (by decide)).2.2.1
     (by decide)⟩

/-- C11: in every run (door reads, the initial one included, being 0 or 1,
the two values `digitalRead` returns) every byte written is 10, 11 or 20;
byte 10 is written only in an iteration whose door sample is closed (0) while
the confirmed status before it was open (non-zero), and byte 11 only in an
iteration whose door sample is open (non-zero) while the confirmed status
before it was closed (0).  The byte set and the byte-10 part do not depend on
the reads being 0 or 1. -/
theorem C11_output_protocol (start : Nat) (d : Int) (inputs : List Input) :
    (∀ b ∈ (main start d inputs).2, b = 10 ∨ b = 11 ∨ b = 20) ∧
    (∀ k ∈ steps (init start d) inputs,
      (∀ b ∈ k.out, b = 10 ∨ b = 11 ∨ b = 20) ∧
      (10 ∈ k.out → k.input.door = 0 ∧ k.before.door_status ≠ 0)) ∧
    ((d = 0 ∨ d = 1) → (∀ i ∈ inputs, i.door = 0 ∨ i.door = 1) →
      ∀ k ∈ steps (init start d) inputs,
        11 ∈ k.out → k.input.door ≠ 0 ∧ k.before.door_status = 0) := by
  refine ⟨loop_bytes inputs (init start d), fun k hk => ?_, fun hd h k hk => ?_⟩
  · have hout := (steps_spec inputs _ k hk).2
    rw [hout]
    refine ⟨iteration_bytes k.input k.before, fun h10 => ?_⟩
    have hf := (mem10_iteration k.input k.before).1 h10
    refine ⟨hf.2, fun hc => hf.1.1 ?_⟩
    rw [hf.2, hc]
  · have hspec := steps_spec inputs _ k hk
    rw [hspec.2]
    intro h11
    have hf := (mem11_iteration k.input k.before).1 h11
    have hi := h k.input hspec.1
    have hb := steps_status_binary inputs (init start d) hd h k hk
    have h1 := hf.1.1
    have h2 := hf.2
    exact ⟨h2, by omega⟩

theorem C11_output_protocol_witness :
    11 ∈ (iteration ⟨450, 0, 1⟩ (iteration ⟨201, 0, 0⟩ (init 0 1)).1).2 ∧
      (1 : Int) ≠ 0 ∧ (iteration ⟨201, 0, 0⟩ (init 0 1)).1.door_status = 0 :=
  ⟨by decide,
   (C11_output_protocol 0 1 [⟨201, 0, 0⟩, ⟨450, 0, 1⟩]).2.2 (by decide) (by decide)
    ⟨(iteration ⟨201, 0, 0⟩ (init 0 1)).1, ⟨450, 0, 1⟩,
      (iteration ⟨450, 0, 1⟩ (iteration ⟨201, 0, 0⟩ (init 0 1)).1).2,
      (iteration ⟨450, 0, 1⟩ (iteration ⟨201, 0, 0⟩ (init 0 1)).1).1⟩ (by decide)
    (by decide)⟩

/-- C12: in every run the confirmed door status changes in an iteration
exactly when that iteration writes a door byte; as long as no door byte has
been written it equals the value read at initialisation; and once a door byte
has been written it is 0 exactly when the most recent door byte is 10 and
non-zero exactly when the most recent door byte is 11.  (A run is any finite
sequence of iterations, so the last two parts hold at every point of a
run.) -/
theorem C12_status_tracks_report (start : Nat) (d : Int) (inputs : List Input) :
    (∀ k ∈ steps (init start d) inputs,
      (k.after.door_status ≠ k.before.door_status ↔ doorBytes k.out ≠ [])) ∧
    (doorBytes (main start d inputs).2 = [] → (main start d inputs).1.door_status = d) ∧
    (∀ b, (doorBytes (main start d inputs).2).getLast? = some b →
      ((main start d inputs).1.door_status = 0 ↔ b = 10) ∧
      ((main start d inputs).1.door_status ≠ 0 ↔ b = 11)) := by
  refine ⟨fun k hk => ?_, (loop_status_last inputs (init start d)).1,
    (loop_status_last inputs (init start d)).2⟩
  rw [steps_after inputs _ k hk, (steps_spec inputs _ k hk).2]
  exact iteration_status_changes k.input k.before

theorem C12_status_tracks_report_witness :
    ((main 0 1 [⟨100, 0, 0⟩, ⟨350, 0, 0⟩, ⟨600, 700, 1⟩, ⟨2000, 700, 1⟩]).1.door_status ≠ 0 ↔
      (11 : Nat) = 11) :=
  ((C12_status_tracks_report 0 1
    [⟨100, 0, 0⟩, ⟨350, 0, 0⟩, ⟨600, 700, 1⟩, ⟨2000, 700, 1⟩]).2.2 11 (by decide)).2

/-- C13: two runs with the same start-up time, iteration times and light
samples, whatever their door samples and initial door reads, write byte 20 in
exactly the same iterations; two runs with the same start-up time, iteration
times, door samples and initial door read, whatever their light samples,
write the same door bytes in the same iterations; the light check leaves the
confirmed status and the door timer alone, and the door check leaves the
light timer alone. -/
theorem C13_independence (start : Nat) (d₁ d₂ d : Int) (xs ys : List Input) :
    (xs.map (fun i => (i.now, i.ldr)) = ys.map (fun i => (i.now, i.ldr)) →
      (steps (init start d₁) xs).map (fun k => lightBytes k.out) =
        (steps (init start d₂) ys).map (fun k => lightBytes k.out)) ∧
    (xs.map (fun i => (i.now, i.door)) = ys.map (fun i => (i.now, i.door)) →
      (steps (init start d) xs).map (fun k => doorBytes k.out) =
        (steps (init start d) ys).map (fun k => doorBytes k.out)) ∧
    (∀ (now ldr : Nat) (s : State),
      (lightCheck now ldr s).1.door_status = s.door_status ∧
      (lightCheck now ldr s).1.timeElapsedDoor = s.timeElapsedDoor) ∧
    (∀ (now : Nat) (n : Int) (s : State),
      (doorCheck now n s).1.timeElapsedLDR = s.timeElapsedLDR) :=
  ⟨steps_light_indep xs ys (init start d₁) (init start d₂) rfl,
   steps_door_indep xs ys (init start d) (init start d) rfl rfl,
   lightCheck_door, doorCheck_ldr⟩

theorem C13_independence_witness :
    (steps (init 0 0) [⟨1200, 600, 1⟩, ⟨1300, 600, 0⟩, ⟨2300, 600, 1⟩]).map
        (fun k => lightBytes k.out) =
      (steps (init 0 1) [⟨1200, 600, 1⟩, ⟨1300, 600, 1⟩, ⟨2300, 600, 0⟩]).map
        (fun k => lightBytes k.out) :=
  (C13_independence 0 0 1 0 [⟨1200, 600, 1⟩, ⟨1300, 600, 0⟩, ⟨2300, 600, 1⟩]
    [⟨1200, 600, 1⟩, ⟨1300, 600, 1⟩, ⟨2300, 600, 0⟩]).1 (by decide)

/-- C14: in every run in which every door read, the initial one included, is
0 or 1, no two consecutive door bytes of the output are equal, and the first
door byte written is 10 if the initial door read was 1 and 11 if it was 0. -/
theorem C14_door_bytes_alternate (start : Nat) (d : Int) (inputs : List Input) :
    (d = 0 ∨ d = 1) → (∀ i ∈ inputs, i.door = 0 ∨ i.door = 1) →
    List.Chain' (fun a b => a ≠ b) (doorBytes (main start d inputs).2) ∧
      ∀ b, (doorBytes (main start d inputs).2).head? = some b →
        (d = 1 → b = 10) ∧ (d = 0 → b = 11) := by
  intro hd h
  have hc := loop_door_alternate inputs (init start d) hd h
  refine ⟨List.Chain'.tail (l := _ :: _) hc, fun b hb => ?_⟩
  have hmem : b ∈ doorBytes (main start d inputs).2 := List.mem_of_mem_head? hb
  have hb2 : b = 10 ∨ b = 11 := by
    have := (List.mem_filter.1 hmem).2
    simpa [isDoorByte] using this
  have hlist : doorBytes (loop (init start d) inputs).2 =
      b :: (doorBytes (loop (init start d) inputs).2).tail := by
    cases hl : doorBytes (loop (init start d) inputs).2 with
    | nil => simp [main, hl] at hb
    | cons c l =>
      simp [main, hl] at hb
      simp [hb]
  rw [hlist] at hc
  have hne := (List.chain_cons.1 hc).1
  have hinit : (init start d).door_status = d := rfl
  rw [hinit] at hne
  constructor
  · intro h1
    have h0 : ¬ d = 0 := by omega
    simp only [h0, if_false] at hne
    omega
  · intro h0
    simp only [h0, if_true] at hne
    omega

theorem C14_door_bytes_alternate_witness :
    List.Chain' (fun a b => a ≠ b)
      (doorBytes (main 0 1 [⟨300, 0, 0⟩, ⟨400, 0, 1⟩, ⟨600, 0, 1⟩, ⟨900, 0, 0⟩]).2) :=
  (C14_door_bytes_alternate 0 1 [⟨300, 0, 0⟩, ⟨400, 0, 1⟩, ⟨600, 0, 1⟩, ⟨900, 0, 0⟩]
    (by decide) (by decide)).1

/-- C15: both timers read zero at start-up, so in every run, whatever the
inputs, an iteration at most 1000 time-units after start-up writes no byte 20
and an iteration at most 200 time-units after start-up writes no door byte
(10 or 11). -/
theorem C15_startup_gating (start : Nat) (d : Int) (inputs : List Input) :
    (init start d).timeElapsedLDR.read start = 0 ∧
    (init start d).timeElapsedDoor.read start = 0 ∧
    ∀ k ∈ steps (init start d) inputs,
      (k.input.now ≤ start + 1000 → 20 ∉ k.out) ∧
      (k.input.now ≤ start + 200 → doorBytes k.out = []) := by
  refine ⟨read_assign_zero start, read_assign_zero start, fun k hk => ?_⟩
  have hout := (steps_spec inputs _ k hk).2
  have hms := steps_ms_le inputs _ k hk
  have h1 : (init start d).timeElapsedLDR.ms = start := rfl
  have h2 : (init start d).timeElapsedDoor.ms = start := rfl
  rw [h1, h2] at hms
  rw [hout]
  constructor
  · intro hle hmem
    have := ((mem20_iteration k.input k.before).1 hmem).2
    simp only [elapsedMillis.read] at this
    omega
  · intro hle
    have hidle : ¬ (k.input.door ≠ k.before.door_status ∧
        200 < k.before.timeElapsedDoor.read k.input.now) := by
      simp only [elapsedMillis.read]
      omega
    rw [iteration_doorBytes, doorCheck_idle hidle]

theorem C15_startup_gating_witness :
    20 ∉ (iteration ⟨1000, 900, 1⟩ (init 0 0)).2 ∧
      doorBytes (iteration ⟨200, 900, 1⟩ (init 0 0)).2 = [] :=
  ⟨((C15_startup_gating 0 0 [⟨1000, 900, 1⟩]).2.2
      ⟨init 0 0, ⟨1000, 900, 1⟩, (iteration ⟨1000, 900, 1⟩ (init 0 0)).2,
        (iteration ⟨1000, 900, 1⟩ (init 0 0)).1⟩ (by decide)).1 (by decide),
   ((C15_startup_gating 0 0 [⟨200, 900, 1⟩]).2.2
      ⟨init 0 0, ⟨200, 900, 1⟩, (iteration ⟨200, 900, 1⟩ (init 0 0)).2,
        (iteration ⟨200, 900, 1⟩ (init 0 0)).1⟩ (by decide)).2 (by decide)⟩

end Monitor
